import Mathlib

/-!
Verification of the computational core of the teaching-probabilistic-inference
widgets: the Bayes medical-test calculator (`docs/medical-test/medical-test.js`)
and the 1D Metropolis-Hastings sampler (`docs/mcmc-1d/mcmc-1d.js`).

JavaScript numbers are modelled exactly: the closed-form Bayes arithmetic over
`ℚ` (only field operations and `Math.round` occur there) and the sampler over
`ℝ` (it uses `Math.exp` and `Math.sqrt`). A JS division `0 / 0`, which yields
`NaN`, is modelled by `Option`: `none` stands for the `NaN` outcome. Within the
documented parameter ranges `[0,100]` a zero denominator forces a zero
numerator, so `none` is exactly the `NaN` case of the source.
-/

/-- JavaScript `Math.round`: round half toward positive infinity,
`Math.round x = ⌊x + 1/2⌋`. -/
def jsRound (x : ℚ) : ℤ := Int.floor (x + 1/2)

/-- `calculatePosterior` from `medical-test.js`:
`p_d = prevalence/100`, `p_t_given_d = sensitivity/100`,
`p_t_given_not_d = (100 - specificity)/100`, and the result is
`(p_t_given_d * p_d) / (p_t_given_d * p_d + p_t_given_not_d * (1 - p_d))`.
The source divides unconditionally; when the denominator is `0` (which within
the valid ranges forces the numerator to be `0` as well) JS produces `NaN`,
modelled here as `none`. -/
def calculatePosterior (prevalence sensitivity specificity : ℚ) : Option ℚ :=
  let p_d := prevalence / 100
  let p_t_given_d := sensitivity / 100
  let p_t_given_not_d := (100 - specificity) / 100
  if p_t_given_d * p_d + p_t_given_not_d * (1 - p_d) = 0 then none
  else some ((p_t_given_d * p_d) / (p_t_given_d * p_d + p_t_given_not_d * (1 - p_d)))

/-- Result record of `calculatePopulationStats`. -/
structure PopulationStats where
  total : ℤ
  diseased : ℤ
  healthy : ℤ
  true_positives : ℤ
  false_negatives : ℤ
  true_negatives : ℤ
  false_positives : ℤ
  total_positives : ℤ
  total_negatives : ℤ
  deriving Repr, DecidableEq

/-- `calculatePopulationStats` from `medical-test.js`: counts for a population
of 10000, each split rounding one cell with `Math.round` and taking the
complement for the other. -/
def calculatePopulationStats (prevalence sensitivity specificity : ℚ) : PopulationStats :=
  let total : ℤ := 10000
  let diseased := jsRound ((total : ℚ) * prevalence / 100)
  let healthy := total - diseased
  let true_positives := jsRound ((diseased : ℚ) * sensitivity / 100)
  let false_negatives := diseased - true_positives
  let true_negatives := jsRound ((healthy : ℚ) * specificity / 100)
  let false_positives := healthy - true_negatives
  { total := total
    diseased := diseased
    healthy := healthy
    true_positives := true_positives
    false_negatives := false_negatives
    true_negatives := true_negatives
    false_positives := false_positives
    total_positives := true_positives + false_positives
    total_negatives := true_negatives + false_negatives }

/-- The spec's posterior formula, written over already-normalized inputs:
`P(D|+) = (sens·prev) / (sens·prev + (1-spec)·(1-prev))`. Used to compare the
source's `calculatePosterior` against the spec's words. -/
def posteriorSpec (prev sens spec : ℚ) : ℚ :=
  (sens * prev) / (sens * prev + (1 - spec) * (1 - prev))

/-- Slider-controlled parameters of the `MCMC1D` class: `proposalStd`,
`targetMean`, `targetStd`. -/
structure MCMCParams where
  proposalStd : ℝ
  targetMean : ℝ
  targetStd : ℝ

/-- Mutable sampling state of the `MCMC1D` class: `currentPosition`,
`proposedPosition`, `samples`, `acceptedSamples`, `isRunning`. -/
structure MCMCState where
  currentPosition : ℝ
  proposedPosition : ℝ
  samples : List ℝ
  acceptedSamples : ℕ
  isRunning : Bool

/-- `targetDensity` from `mcmc-1d.js`: the Gaussian density
`exp(-0.5·(x-mean)²/variance) / sqrt(2·π·variance)` with `variance = std·std`. -/
noncomputable def targetDensity (mean std x : ℝ) : ℝ :=
  Real.exp (-(1 / 2) * (x - mean) ^ 2 / (std * std)) / Real.sqrt (2 * Real.pi * (std * std))

/-- `proposePosition` from `mcmc-1d.js`: the candidate
`currentPosition + (u - 0.5) * 2 * proposalStd * sqrt 12`, where `u` is the
uniform draw `Math.random()`. -/
noncomputable def proposePosition (std pos u : ℝ) : ℝ :=
  pos + (u - 1 / 2) * 2 * std * Real.sqrt 12

/-- `acceptProposal` from `mcmc-1d.js`, with the uniform draw `u` explicit:
accept when `u < min 1 (targetDensity proposed / targetDensity current)`. -/
def acceptProposal (P : MCMCParams) (current proposed u : ℝ) : Prop :=
  u < min 1 (targetDensity P.targetMean P.targetStd proposed /
    targetDensity P.targetMean P.targetStd current)

/-- One MCMC step: the body of `animate` in `mcmc-1d.js` (propose, decide
acceptance, on acceptance move and bump `acceptedSamples`, then push the
current position onto `samples`). The `isRunning` guard and the timer
scheduling around this body are presentation-level and not part of the step.
`u1` is the uniform draw of `proposePosition`, `u2` the one of
`acceptProposal`. -/
noncomputable def mcmcStep (P : MCMCParams) (s : MCMCState) (u1 u2 : ℝ) : MCMCState :=
  letI := Classical.propDecidable
    (acceptProposal P s.currentPosition (proposePosition P.proposalStd s.currentPosition u1) u2)
  if acceptProposal P s.currentPosition (proposePosition P.proposalStd s.currentPosition u1) u2 then
    { currentPosition := proposePosition P.proposalStd s.currentPosition u1
      proposedPosition := proposePosition P.proposalStd s.currentPosition u1
      samples := s.samples ++ [proposePosition P.proposalStd s.currentPosition u1]
      acceptedSamples := s.acceptedSamples + 1
      isRunning := s.isRunning }
  else
    { currentPosition := s.currentPosition
      proposedPosition := proposePosition P.proposalStd s.currentPosition u1
      samples := s.samples ++ [s.currentPosition]
      acceptedSamples := s.acceptedSamples
      isRunning := s.isRunning }

/-- The sampling state set up by the `MCMC1D` constructor. -/
def initialState : MCMCState :=
  { currentPosition := 0
    proposedPosition := 0
    samples := []
    acceptedSamples := 0
    isRunning := false }

/-- `resetSampling` from `mcmc-1d.js`: pause (clear `isRunning`), then reset
`currentPosition`, `proposedPosition`, `samples`, `acceptedSamples`. -/
def resetSampling (_s : MCMCState) : MCMCState :=
  { currentPosition := 0
    proposedPosition := 0
    samples := []
    acceptedSamples := 0
    isRunning := false }

/-- States reachable from the constructor's initial state by any sequence of
`mcmcStep` (with arbitrary parameters and draws) and `resetSampling`. -/
inductive Reachable : MCMCState → Prop
  | init : Reachable initialState
  | step (P : MCMCParams) (s : MCMCState) (u1 u2 : ℝ) :
      Reachable s → Reachable (mcmcStep P s u1 u2)
  | reset (s : MCMCState) : Reachable s → Reachable (resetSampling s)

/-- The constructor defaults of `MCMC1D`: `proposalStd = 0.5`,
`targetMean = 0`, `targetStd = 1`. -/
noncomputable def defaultParams : MCMCParams :=
  { proposalStd := 0.5, targetMean := 0, targetStd := 1 }

theorem calculatePosterior_eq (p s t : ℚ) :
    calculatePosterior p s t =
      if s / 100 * (p / 100) + (100 - t) / 100 * (1 - p / 100) = 0 then none
      else some ((s / 100 * (p / 100)) /
        (s / 100 * (p / 100) + (100 - t) / 100 * (1 - p / 100))) := rfl

/-- C1: for all parameters in `[0,100]`, whenever the denominator is nonzero,
`calculatePosterior` returns `(sens·prev) / (sens·prev + (1-spec)·(1-prev))`
with `prev = prevalence/100`, `sens = sensitivity/100`, `spec = specificity/100`. -/
theorem posterior_matches_spec (p s t : ℚ)
    (hp0 : 0 ≤ p) (hp1 : p ≤ 100) (hs0 : 0 ≤ s) (hs1 : s ≤ 100)
    (ht0 : 0 ≤ t) (ht1 : t ≤ 100)
    (hden : s / 100 * (p / 100) + (1 - t / 100) * (1 - p / 100) ≠ 0) :
    calculatePosterior p s t = some (posteriorSpec (p / 100) (s / 100) (t / 100)) := by
  have hden' : (100 - t) / 100 * (1 - p / 100) = (1 - t / 100) * (1 - p / 100) := by ring
  rw [calculatePosterior_eq, hden', if_neg hden]
  unfold posteriorSpec
  ring_nf

theorem posterior_matches_spec_witness :
    calculatePosterior 1 95 95 = some (posteriorSpec (1 / 100) (95 / 100) (95 / 100)) :=
  posterior_matches_spec 1 95 95 (by norm_num) (by norm_num) (by norm_num) (by norm_num)
    (by norm_num) (by norm_num) (by norm_num)

theorem calculatePosterior_some {p s t q : ℚ} (h : calculatePosterior p s t = some q) :
    s / 100 * (p / 100) + (100 - t) / 100 * (1 - p / 100) ≠ 0 ∧
    q = s / 100 * (p / 100) / (s / 100 * (p / 100) + (100 - t) / 100 * (1 - p / 100)) := by
  rw [calculatePosterior_eq] at h
  split_ifs at h with hd
  exact ⟨hd, (Option.some.inj h).symm⟩

theorem div_le_div_of_cross {n1 d1 n2 d2 : ℚ} (hd1 : 0 < d1) (hd2 : 0 < d2)
    (h : n1 * d2 ≤ n2 * d1) : n1 / d1 ≤ n2 / d2 := by
  rw [div_le_div_iff₀ hd1 hd2]
  exact h

theorem jsRound_eq (x : ℚ) (z : ℤ) (h1 : (z : ℚ) ≤ x + 1/2) (h2 : x + 1/2 < z + 1) :
    jsRound x = z := Int.floor_eq_iff.mpr ⟨h1, h2⟩

/-- Supporting lemma: within the valid ranges, `calculatePosterior` yields the
`NaN` outcome (`none`) exactly when `sens·prev + (1-spec)·(1-prev) = 0`, and in
that degenerate case the outcome differs from a valid posterior of `0`. This is
the extensional behavior only; the source reaches `NaN` by dividing
unconditionally, with no explicit guard and no documentation. -/
theorem posterior_degenerate_iff (p s t : ℚ)
    (hp0 : 0 ≤ p) (hp1 : p ≤ 100) (hs0 : 0 ≤ s) (hs1 : s ≤ 100)
    (ht0 : 0 ≤ t) (ht1 : t ≤ 100) :
    (calculatePosterior p s t = none ↔
      s / 100 * (p / 100) + (1 - t / 100) * (1 - p / 100) = 0)
    ∧ (s / 100 * (p / 100) + (1 - t / 100) * (1 - p / 100) = 0 →
      calculatePosterior p s t ≠ some 0) := by
  have hE : (100 - t) / 100 * (1 - p / 100) = (1 - t / 100) * (1 - p / 100) := by ring
  constructor
  · rw [calculatePosterior_eq, hE]
    split_ifs with h
    · simp [h]
    · simp [h]
  · intro h
    rw [calculatePosterior_eq, hE, if_pos h]
    simp

/-- C4, evaluation at the failing input: at prevalence `0`, sensitivity `50`,
specificity `100` the degenerate case `sens·prev + (1-spec)·(1-prev) = 0`
holds, and the code — which divides with no explicit guard — produces the
silent-division `NaN` outcome (`none`), distinct from `some 0`. The claim's
requirement of a documented, explicit guard instead of silent zero-division is
absent from the source. -/
theorem posterior_degenerate_at_failing_input :
    calculatePosterior 0 50 100 = none ∧ calculatePosterior 0 50 100 ≠ some 0 :=
  ⟨(posterior_degenerate_iff 0 50 100 (by norm_num) (by norm_num) (by norm_num) (by norm_num)
      (by norm_num) (by norm_num)).1.mpr (by norm_num),
   (posterior_degenerate_iff 0 50 100 (by norm_num) (by norm_num) (by norm_num) (by norm_num)
      (by norm_num) (by norm_num)).2 (by norm_num)⟩

/-- C6, counterexample: at prevalence `0`, sensitivity `95`, specificity `100`,
the denominator is zero and `calculatePosterior` yields the `NaN` outcome
(`none`), not `0`, so zero prevalence does not always give a zero posterior. -/
theorem posterior_zero_prev_cex : calculatePosterior 0 95 100 ≠ some 0 := by
  rw [calculatePosterior_eq, if_pos (by norm_num)]
  simp

/-- C6, amended: for sensitivity and specificity in `[0,100]` with specificity
strictly below `100` (so the denominator is nonzero), zero prevalence yields a
posterior of exactly `0`; at specificity `100` the code instead yields `NaN`. -/
theorem posterior_zero_prevalence (s t : ℚ)
    (hs0 : 0 ≤ s) (hs1 : s ≤ 100) (ht0 : 0 ≤ t) (ht1 : t < 100) :
    calculatePosterior 0 s t = some 0 := by
  have hne : s / 100 * ((0 : ℚ) / 100) + (100 - t) / 100 * (1 - (0 : ℚ) / 100) ≠ 0 := by
    have hEq : s / 100 * ((0 : ℚ) / 100) + (100 - t) / 100 * (1 - (0 : ℚ) / 100)
        = (100 - t) / 100 := by ring
    rw [hEq]
    intro h
    rcases div_eq_zero_iff.mp h with h1 | h2
    · linarith
    · norm_num at h2
  rw [calculatePosterior_eq, if_neg hne]
  rw [show s / 100 * ((0 : ℚ) / 100) = 0 by ring, zero_div]

theorem posterior_zero_prevalence_witness : calculatePosterior 0 95 95 = some 0 :=
  posterior_zero_prevalence 95 95 (by norm_num) (by norm_num) (by norm_num) (by norm_num)

/-- C7: wherever defined on the valid ranges, the posterior is non-decreasing
in sensitivity (prevalence and specificity fixed) and non-decreasing in
prevalence (sensitivity and specificity fixed). -/
theorem posterior_monotone :
    (∀ p s1 s2 t q1 q2 : ℚ, 0 ≤ p → p ≤ 100 → 0 ≤ s1 → s1 ≤ s2 → s2 ≤ 100 →
      0 ≤ t → t ≤ 100 → calculatePosterior p s1 t = some q1 →
      calculatePosterior p s2 t = some q2 → q1 ≤ q2)
    ∧ (∀ p1 p2 s t q1 q2 : ℚ, 0 ≤ p1 → p1 ≤ p2 → p2 ≤ 100 → 0 ≤ s → s ≤ 100 →
      0 ≤ t → t ≤ 100 → calculatePosterior p1 s t = some q1 →
      calculatePosterior p2 s t = some q2 → q1 ≤ q2) := by
  constructor
  · intro p s1 s2 t q1 q2 hp0 hp1 hs10 hs12 hs21 ht0 ht1 h1 h2
    obtain ⟨hd1, hq1⟩ := calculatePosterior_some h1
    obtain ⟨hd2, hq2⟩ := calculatePosterior_some h2
    have hA : (0 : ℚ) ≤ p / 100 := div_nonneg hp0 (by norm_num)
    have hb : (0 : ℚ) ≤ 1 - p / 100 := by
      have : p / 100 ≤ 1 := by linarith [div_le_one_of_le₀ hp1 (by norm_num : (0:ℚ) ≤ 100)]
      linarith
    have hc : (0 : ℚ) ≤ (100 - t) / 100 := div_nonneg (by linarith) (by norm_num)
    have hx1 : (0 : ℚ) ≤ s1 / 100 := div_nonneg hs10 (by norm_num)
    have hx2 : (0 : ℚ) ≤ s2 / 100 := div_nonneg (hs10.trans hs12) (by norm_num)
    have hx12 : s1 / 100 ≤ s2 / 100 := by linarith
    have hd1p : 0 < s1 / 100 * (p / 100) + (100 - t) / 100 * (1 - p / 100) :=
      (add_nonneg (mul_nonneg hx1 hA) (mul_nonneg hc hb)).lt_of_ne (Ne.symm hd1)
    have hd2p : 0 < s2 / 100 * (p / 100) + (100 - t) / 100 * (1 - p / 100) :=
      (add_nonneg (mul_nonneg hx2 hA) (mul_nonneg hc hb)).lt_of_ne (Ne.symm hd2)
    rw [hq1, hq2]
    apply div_le_div_of_cross hd1p hd2p
    have key : 0 ≤ (100 - t) / 100 * (1 - p / 100) * (p / 100) * (s2 / 100 - s1 / 100) :=
      mul_nonneg (mul_nonneg (mul_nonneg hc hb) hA) (by linarith)
    nlinarith [key]
  · intro p1 p2 s t q1 q2 hp10 hp12 hp21 hs0 hs1 ht0 ht1 h1 h2
    obtain ⟨hd1, hq1⟩ := calculatePosterior_some h1
    obtain ⟨hd2, hq2⟩ := calculatePosterior_some h2
    have hA1 : (0 : ℚ) ≤ p1 / 100 := div_nonneg hp10 (by norm_num)
    have hA2 : (0 : ℚ) ≤ p2 / 100 := div_nonneg (hp10.trans hp12) (by norm_num)
    have hb1 : (0 : ℚ) ≤ 1 - p1 / 100 := by
      have hle : p1 ≤ 100 := hp12.trans hp21
      have : p1 / 100 ≤ 1 := by linarith [div_le_one_of_le₀ hle (by norm_num : (0:ℚ) ≤ 100)]
      linarith
    have hb2 : (0 : ℚ) ≤ 1 - p2 / 100 := by
      have : p2 / 100 ≤ 1 := by linarith [div_le_one_of_le₀ hp21 (by norm_num : (0:ℚ) ≤ 100)]
      linarith
    have hc : (0 : ℚ) ≤ (100 - t) / 100 := div_nonneg (by linarith) (by norm_num)
    have hx : (0 : ℚ) ≤ s / 100 := div_nonneg hs0 (by norm_num)
    have hA12 : p1 / 100 ≤ p2 / 100 := by linarith
    have hd1p : 0 < s / 100 * (p1 / 100) + (100 - t) / 100 * (1 - p1 / 100) :=
      (add_nonneg (mul_nonneg hx hA1) (mul_nonneg hc hb1)).lt_of_ne (Ne.symm hd1)
    have hd2p : 0 < s / 100 * (p2 / 100) + (100 - t) / 100 * (1 - p2 / 100) :=
      (add_nonneg (mul_nonneg hx hA2) (mul_nonneg hc hb2)).lt_of_ne (Ne.symm hd2)
    rw [hq1, hq2]
    apply div_le_div_of_cross hd1p hd2p
    have key : 0 ≤ s / 100 * ((100 - t) / 100) * (p2 / 100 - p1 / 100) :=
      mul_nonneg (mul_nonneg hx hc) (by linarith)
    nlinarith [key]

theorem posterior_monotone_witness :
    calculatePosterior 1 90 95 = some (2 / 13) ∧ calculatePosterior 1 95 95 = some (19 / 118)
    ∧ (2 / 13 : ℚ) ≤ 19 / 118 := by
  have h1 : calculatePosterior 1 90 95 = some (2 / 13) := by
    rw [calculatePosterior_eq]
    norm_num
  have h2 : calculatePosterior 1 95 95 = some (19 / 118) := by
    rw [calculatePosterior_eq]
    norm_num
  exact ⟨h1, h2, posterior_monotone.1 1 90 95 95 (2 / 13) (19 / 118) (by norm_num)
    (by norm_num) (by norm_num) (by norm_num) (by norm_num) (by norm_num) (by norm_num) h1 h2⟩

/-- C8: at prevalence `1`, sensitivity `95`, specificity `95` the posterior is
`19/118`, within `1e-3` of `0.1601`, and the population breakdown for a total
of `10000` is `diseased = 100`, `truePositive = 95`, `falsePositive = 495`,
`trueNegative = 9405`, `falseNegative = 5`. -/
theorem scenario_results :
    calculatePosterior 1 95 95 = some (19 / 118)
    ∧ |(19 / 118 : ℚ) - 1601 / 10000| ≤ 1 / 1000
    ∧ (calculatePopulationStats 1 95 95).diseased = 100
    ∧ (calculatePopulationStats 1 95 95).true_positives = 95
    ∧ (calculatePopulationStats 1 95 95).false_positives = 495
    ∧ (calculatePopulationStats 1 95 95).true_negatives = 9405
    ∧ (calculatePopulationStats 1 95 95).false_negatives = 5 := by
  have h1 : jsRound (((10000 : ℤ) : ℚ) * 1 / 100) = 100 := by
    apply jsRound_eq <;> norm_num
  have h2 : jsRound (((100 : ℤ) : ℚ) * 95 / 100) = 95 := by
    apply jsRound_eq <;> norm_num
  have h3 : jsRound (((10000 - 100 : ℤ) : ℚ) * 95 / 100) = 9405 := by
    apply jsRound_eq <;> norm_num
  refine ⟨?_, ?_, ?_, ?_, ?_, ?_, ?_⟩
  · rw [calculatePosterior_eq]
    norm_num
  · rw [abs_le]
    constructor <;> norm_num
  · simp only [calculatePopulationStats]
    exact h1
  · simp only [calculatePopulationStats, h1]
    exact h2
  · simp only [calculatePopulationStats, h1, h3]
    norm_num
  · simp only [calculatePopulationStats, h1]
    exact h3
  · simp only [calculatePopulationStats, h1, h2]
    norm_num

/-- C10: for all parameters in `[0,100]`, the four confusion-matrix cells of
`calculatePopulationStats` sum exactly to the total population `10000`: each
pair is one rounded cell plus its complement, so no rounding drift occurs. -/
theorem population_cells_sum (p s t : ℚ)
    (hp0 : 0 ≤ p) (hp1 : p ≤ 100) (hs0 : 0 ≤ s) (hs1 : s ≤ 100)
    (ht0 : 0 ≤ t) (ht1 : t ≤ 100) :
    (calculatePopulationStats p s t).true_positives
    + (calculatePopulationStats p s t).false_negatives
    + (calculatePopulationStats p s t).true_negatives
    + (calculatePopulationStats p s t).false_positives = 10000 := by
  simp only [calculatePopulationStats]
  ring

theorem population_cells_sum_witness :
    (calculatePopulationStats 1 95 95).true_positives
    + (calculatePopulationStats 1 95 95).false_negatives
    + (calculatePopulationStats 1 95 95).true_negatives
    + (calculatePopulationStats 1 95 95).false_positives = 10000 :=
  population_cells_sum 1 95 95 (by norm_num) (by norm_num) (by norm_num) (by norm_num)
    (by norm_num) (by norm_num)

theorem mcmcStep_samples_and_count (P : MCMCParams) (s : MCMCState) (u1 u2 : ℝ) :
    (mcmcStep P s u1 u2).samples = s.samples ++ [(mcmcStep P s u1 u2).currentPosition]
    ∧ ((mcmcStep P s u1 u2).acceptedSamples = s.acceptedSamples
       ∨ (mcmcStep P s u1 u2).acceptedSamples = s.acceptedSamples + 1) := by
  unfold mcmcStep
  split
  · exact ⟨rfl, Or.inr rfl⟩
  · exact ⟨rfl, Or.inl rfl⟩

/-- C2: every `mcmcStep` appends exactly one element, namely the (possibly
just-updated) current position, to `samples` and leaves `acceptedSamples`
unchanged or raises it by one; hence `acceptedSamples ≤ samples.length` in
every state reachable from the initial state by steps and resets. -/
theorem step_records_and_inv :
    (∀ (P : MCMCParams) (s : MCMCState) (u1 u2 : ℝ),
      (mcmcStep P s u1 u2).samples = s.samples ++ [(mcmcStep P s u1 u2).currentPosition]
      ∧ (mcmcStep P s u1 u2).samples.length = s.samples.length + 1
      ∧ ((mcmcStep P s u1 u2).acceptedSamples = s.acceptedSamples
         ∨ (mcmcStep P s u1 u2).acceptedSamples = s.acceptedSamples + 1))
    ∧ ∀ s : MCMCState, Reachable s → s.acceptedSamples ≤ s.samples.length := by
  constructor
  · intro P s u1 u2
    obtain ⟨h1, h2⟩ := mcmcStep_samples_and_count P s u1 u2
    refine ⟨h1, ?_, h2⟩
    rw [h1]
    simp
  · intro s hs
    induction hs with
    | init => simp [initialState]
    | step P s u1 u2 hr ih =>
        obtain ⟨h1, h2⟩ := mcmcStep_samples_and_count P s u1 u2
        have hlen : (mcmcStep P s u1 u2).samples.length = s.samples.length + 1 := by
          rw [h1]
          simp
        rcases h2 with h2 | h2 <;> omega
    | reset s hr ih => simp [resetSampling]

theorem step_records_and_inv_witness :
    (mcmcStep defaultParams initialState (1/2) 0).acceptedSamples
      ≤ (mcmcStep defaultParams initialState (1/2) 0).samples.length :=
  step_records_and_inv.2 _ (Reachable.step defaultParams initialState (1/2) 0 Reachable.init)

/-- C3: with the two uniform draws explicit, the step accepts exactly when the
acceptance draw is strictly below `min 1 (density(proposed)/density(current))`
under the Gaussian target density; on acceptance the position becomes the
proposed value and `acceptedSamples` rises by one, otherwise both stay put. -/
theorem step_acceptance (P : MCMCParams) (s : MCMCState) (u1 u2 q : ℝ)
    (hq : q = proposePosition P.proposalStd s.currentPosition u1) :
    (acceptProposal P s.currentPosition q u2 ↔
      u2 < min 1 (targetDensity P.targetMean P.targetStd q /
        targetDensity P.targetMean P.targetStd s.currentPosition))
    ∧ (acceptProposal P s.currentPosition q u2 →
        (mcmcStep P s u1 u2).currentPosition = q
        ∧ (mcmcStep P s u1 u2).acceptedSamples = s.acceptedSamples + 1)
    ∧ (¬ acceptProposal P s.currentPosition q u2 →
        (mcmcStep P s u1 u2).currentPosition = s.currentPosition
        ∧ (mcmcStep P s u1 u2).acceptedSamples = s.acceptedSamples) := by
  subst hq
  refine ⟨Iff.rfl, ?_, ?_⟩
  · intro h
    unfold mcmcStep
    rw [if_pos h]
    exact ⟨rfl, rfl⟩
  · intro h
    unfold mcmcStep
    rw [if_neg h]
    exact ⟨rfl, rfl⟩

theorem step_acceptance_witness :
    (mcmcStep defaultParams initialState (1/2) 0).acceptedSamples
      = initialState.acceptedSamples + 1 := by
  have hprop : proposePosition defaultParams.proposalStd initialState.currentPosition (1/2)
      = initialState.currentPosition := by
    norm_num [proposePosition, initialState, defaultParams]
  have hd : 0 < targetDensity defaultParams.targetMean defaultParams.targetStd
      initialState.currentPosition := by
    simp only [defaultParams, initialState, targetDensity]
    positivity
  have hacc : acceptProposal defaultParams initialState.currentPosition
      (proposePosition defaultParams.proposalStd initialState.currentPosition (1/2)) 0 := by
    unfold acceptProposal
    rw [hprop, div_self (ne_of_gt hd)]
    norm_num
  exact ((step_acceptance defaultParams initialState (1/2) 0 _ rfl).2.1 hacc).2

/-- C9: after `resetSampling`, regardless of the prior state, `samples` is
empty, `acceptedSamples` is `0`, and both positions equal `0.0`. -/
theorem reset_clears (s : MCMCState) :
    (resetSampling s).samples = [] ∧ (resetSampling s).acceptedSamples = 0
    ∧ (resetSampling s).currentPosition = 0 ∧ (resetSampling s).proposedPosition = 0 :=
  ⟨rfl, rfl, rfl, rfl⟩

theorem reset_clears_witness :
    (resetSampling initialState).samples = []
    ∧ (resetSampling initialState).acceptedSamples = 0
    ∧ (resetSampling initialState).currentPosition = 0
    ∧ (resetSampling initialState).proposedPosition = 0 :=
  reset_clears initialState

theorem proposal_sq_integral (scale pos : ℝ) :
    (∫ u in (0:ℝ)..1, (proposePosition scale pos u - pos) ^ 2) = 4 * scale ^ 2 := by
  have h12 : Real.sqrt 12 ^ 2 = 12 := Real.sq_sqrt (by norm_num)
  have hfun : ∀ u : ℝ,
      (proposePosition scale pos u - pos) ^ 2 = (u - 1/2) ^ 2 * (48 * scale ^ 2) := by
    intro u
    unfold proposePosition
    have hexp : (pos + (u - 1/2) * 2 * scale * Real.sqrt 12 - pos) ^ 2
        = (u - 1/2) ^ 2 * (2 ^ 2 * scale ^ 2 * Real.sqrt 12 ^ 2) := by ring
    rw [hexp, h12]
    ring
  simp only [hfun]
  rw [intervalIntegral.integral_mul_const]
  have hpoly : (∫ u in (0:ℝ)..1, (u - 1/2) ^ 2) = 1/12 := by
    rw [intervalIntegral.integral_comp_sub_right (fun x => x ^ 2) (1/2), integral_pow]
    norm_num
  rw [hpoly]
  ring

/-- C5, counterexample: at `scale = 1`, `position = 0`, the second moment of
the proposal perturbation over one uniform draw is `4`, not `scale ^ 2 = 1`. -/
theorem proposal_variance_cex :
    ¬ ((∫ u in (0:ℝ)..1, (proposePosition 1 0 u - 0) ^ 2) = 1 ^ 2) := by
  rw [proposal_sq_integral 1 0]
  norm_num

/-- C5, amended: `proposePosition` draws `position + (2u-1)·scale·√12` (a
uniform `U(-1,1)` perturbation scaled by `scale·√12`), and for `u` uniform on
`[0,1)` this perturbation has second moment `4·scale²` (standard deviation
`2·scale`), not `scale²`. -/
theorem proposal_second_moment (scale pos : ℝ) :
    (∀ u : ℝ, proposePosition scale pos u = pos + (2 * u - 1) * scale * Real.sqrt 12)
    ∧ (∫ u in (0:ℝ)..1, (proposePosition scale pos u - pos) ^ 2) = 4 * scale ^ 2 := by
  constructor
  · intro u
    unfold proposePosition
    ring
  · exact proposal_sq_integral scale pos
